import Mathlib

/-!
# Verification of godocker's streaming tar directory reader

Shallow embedding of `tar_dir_reader.go` (package godocker): a lazily
initialized reader that walks a directory tree once, records the non-directory
paths in a queue, and serializes them into a tar byte stream through an
unbuffered pipe fed by a background producing task.

Paths are modelled as lists of name segments (the Go code joins segments with
"/" and the root is "."); `filepath.Base` becomes the last segment.  Bytes are
naturals below 256.  The Go standard library collaborators (`fs.WalkDir`,
`io.Pipe`, `archive/tar`) are modelled at the level of their documented
behaviour: the walk feeds a callback pre-order, the pipe is an unbuffered
rendezvous, the tar writer emits a 512-byte header block per entry, the raw
content padded to the block size, and a 1024-zero-byte trailer on close.
-/

namespace Godocker

/-- A path relative to the archive root: the list of name segments.
The Go code carries these as strings joined by "/"; the root is `[]` (Go "."). -/
abbrev GoPath := List String

/-- Errors the component can observe.  `walkFail p` models `fs.WalkDir`
reporting a directory read failure at `p`; `openFail`/`statFail` model per-file
`Open`/`Stat` failures; `eofE` is the `io.EOF` sentinel returned at
end-of-stream; `writerMisuse` models `archive/tar`'s write-state errors. -/
inductive Err
  | walkFail (p : GoPath)
  | openFail (p : GoPath)
  | statFail (p : GoPath)
  | eofE
  | writerMisuse
deriving Repr, DecidableEq

/-- Content and metadata of one regular file in the source tree. -/
structure FileData where
  content : List Nat
  mode : Nat
  mtime : Nat
deriving Repr, DecidableEq

/-- A node of the abstract read-only source tree handed to the reader
(`os.DirFS(dir)` in the Go code).  `badDir` is a directory whose enumeration
fails, so `fs.WalkDir` reports an error at its path. -/
inductive FNode
  | file (data : FileData)
  | dir (entries : List (String × FNode))
  | badDir

/-- `fs.Stat` result: the fields `tar.FileInfoHeader` reads. -/
structure FileInfo where
  name : String
  size : Nat
  mode : Nat
  mtime : Nat
  isDir : Bool
deriving Repr, DecidableEq

/-- The `FileInfo` that `Stat` returns for a regular file at base name `n`. -/
def FileData.info (d : FileData) (n : String) : FileInfo :=
  { name := n, size := d.content.length, mode := d.mode, mtime := d.mtime,
    isDir := false }

mutual
/-- Model of `fs.WalkDir` restricted to the callback discipline the Go code
uses: visit the node itself, then its children in the stable enumeration
order; a `badDir` gets a second callback invocation carrying the enumeration
error, exactly as `fs.WalkDir` re-invokes the function with the `ReadDir`
error.  State `s` threads the callback's accumulator (the Go closure mutates
`t.queue`). -/
def walkDirNode {σ : Type} (fn : σ → GoPath → Bool → Option Err → Except Err σ)
    (s : σ) (p : GoPath) : FNode → Except Err σ
  | .file _ => fn s p false none
  | .dir es =>
    match fn s p true none with
    | .error e => .error e
    | .ok s1 => walkDirList fn s1 p es
  | .badDir =>
    match fn s p true none with
    | .error e => .error e
    | .ok s1 => fn s1 p true (some (.walkFail p))

/-- Walk the children of a directory in order. -/
def walkDirList {σ : Type} (fn : σ → GoPath → Bool → Option Err → Except Err σ)
    (s : σ) (p : GoPath) : List (String × FNode) → Except Err σ
  | [] => .ok s
  | (n, c) :: rest =>
    match walkDirNode fn s (p ++ [n]) c with
    | .error e => .error e
    | .ok s1 => walkDirList fn s1 p rest
end

/-- The callback body of `tarDirReader.init`'s `fs.WalkDir` call: propagate a
walk error, otherwise append every non-directory path to the queue. -/
def initCallback (queue : List GoPath) (path : GoPath) (isDir : Bool)
    (err : Option Err) : Except Err (List GoPath) :=
  match err with
  | some e => .error e
  | none => .ok (if !isDir then queue ++ [path] else queue)

/-- The queue-building walk performed once by `tarDirReader.init`:
`fs.WalkDir(t.fs, ".", callback)` starting from the root with an empty queue. -/
def walkCollect (root : FNode) : Except Err (List GoPath) :=
  walkDirNode initCallback [] [] root

mutual
/-- Specification-side description of the walk result: the paths of the
regular files in pre-order, directories not emitted. -/
def preorderFiles (p : GoPath) : FNode → List GoPath
  | .file _ => [p]
  | .dir es => preorderFilesList p es
  | .badDir => []

/-- Pre-order file paths of a directory's children. -/
def preorderFilesList (p : GoPath) : List (String × FNode) → List GoPath
  | [] => []
  | (n, c) :: rest => preorderFiles (p ++ [n]) c ++ preorderFilesList p rest
end

mutual
/-- A tree is clean when no directory enumeration in it fails. -/
def FNode.clean : FNode → Bool
  | .file _ => true
  | .dir es => cleanList es
  | .badDir => false

/-- All children clean. -/
def cleanList : List (String × FNode) → Bool
  | [] => true
  | (_, c) :: rest => c.clean && cleanList rest
end

/-- The tar block size. -/
def blockSize : Nat := 512

/-- UTF-32 code points of a string, the byte image of a name field
(sufficient for the ASCII names of the development). -/
def strBytes (s : String) : List Nat := s.data.map Char.toNat

/-- A fixed-width field: truncate to `w` bytes and zero-pad on the right. -/
def fieldBytes (bs : List Nat) (w : Nat) : List Nat :=
  bs.take w ++ List.replicate (w - bs.length) 0

/-- A number as `w` base-256 digits, least significant first. -/
def natField : Nat → Nat → List Nat
  | _, 0 => []
  | n, w + 1 => n % 256 :: natField (n / 256) w

/-- The header fields of a `tar.Header` this program sets or reads. -/
structure TarHeader where
  name : String
  size : Nat
  mode : Nat
  mtime : Nat
deriving Repr, DecidableEq

/-- The 512-byte header block `archive/tar` emits for a header: name field
(100 bytes), mode (8), size (12), mtime (12), a magic marker distinguishing a
header block from the zero trailer, and zero padding to the block size. -/
def encodeHeader (h : TarHeader) : List Nat :=
  fieldBytes (strBytes h.name) 100 ++ natField h.mode 8 ++
  natField h.size 12 ++ natField h.mtime 12 ++
  [117, 115, 116, 97, 114, 48] ++ List.replicate 374 0

/-- State of a `tar.Writer` wrapped around the pipe: the bytes pushed to the
underlying writer so far, the content bytes still owed for the current entry,
and the block padding owed once the entry's content is complete. -/
structure TarWriter where
  out : List Nat
  remaining : Nat
  pad : Nat
deriving Repr, DecidableEq

/-- `tar.Writer.Flush`: finish the current entry's block padding; errors if the
entry's content was not fully written. -/
def TarWriter.flush (tw : TarWriter) : Except Err TarWriter :=
  if tw.remaining ≠ 0 then .error .writerMisuse
  else .ok { out := tw.out ++ List.replicate tw.pad 0, remaining := 0, pad := 0 }

/-- `tar.Writer.WriteHeader`: implicitly flush the previous entry, then emit
the header block and arm the content/padding accounting for the new entry. -/
def TarWriter.writeHeader (tw : TarWriter) (h : TarHeader) : Except Err TarWriter :=
  match tw.flush with
  | .error e => .error e
  | .ok tw1 =>
    .ok { out := tw1.out ++ encodeHeader h, remaining := h.size,
          pad := (blockSize - h.size % blockSize) % blockSize }

/-- `tar.Writer.Write` (the write side of `io.Copy(t.archive, file)`): append
content bytes; errors when more bytes arrive than the header announced. -/
def TarWriter.write (tw : TarWriter) (bs : List Nat) : Except Err TarWriter :=
  if bs.length > tw.remaining then .error .writerMisuse
  else .ok { out := tw.out ++ bs, remaining := tw.remaining - bs.length, pad := tw.pad }

/-- `tar.Writer.Close`: flush, then emit the end-of-archive trailer of two
zero blocks. -/
def TarWriter.close (tw : TarWriter) : Except Err TarWriter :=
  match tw.flush with
  | .error e => .error e
  | .ok tw1 => .ok { tw1 with out := tw1.out ++ List.replicate (2 * blockSize) 0 }

/-- `tar.FileInfoHeader(info, "")` for the file and directory infos this
filesystem model produces (never fails on these). -/
def tarFileInfoHeader (info : FileInfo) : Except Err TarHeader :=
  .ok { name := if info.isDir then info.name ++ "/" else info.name,
        size := if info.isDir then 0 else info.size,
        mode := info.mode, mtime := info.mtime }

/-- `filepath.Base` on a segment path: the last segment ("." for the root). -/
def baseName (p : GoPath) : String := p.getLastD "."

/-- The filesystem handed to the reader, with its failure environment: `tree`
is the snapshot `os.DirFS` exposes, `failOpen`/`failStat` are the paths whose
`Open`/`Stat` calls fail (e.g. files removed or made unreadable after the
walk). -/
structure GoFS where
  tree : FNode
  failOpen : List GoPath
  failStat : List GoPath

mutual
/-- Resolve a segment path in the tree. -/
def lookupSegs : FNode → GoPath → Option FNode
  | n, [] => some n
  | .dir es, s :: rest => lookupList es s rest
  | .file _, _ :: _ => none
  | .badDir, _ :: _ => none

/-- Resolve a name among a directory's children, then continue. -/
def lookupList : List (String × FNode) → String → GoPath → Option FNode
  | [], _, _ => none
  | (n, c) :: rest, s, p => if n = s then lookupSegs c p else lookupList rest s p
end

/-- An opened file handle: the `Stat` outcome and the readable content. -/
structure OpenedFile where
  statRes : Except Err FileInfo
  content : List Nat

/-- `t.fs.Open(f)`: fails for paths in the failure environment and for paths
that do not resolve to a regular file. -/
def openFile (fs : GoFS) (f : GoPath) : Except Err OpenedFile :=
  if f ∈ fs.failOpen then .error (.openFail f)
  else
    match lookupSegs fs.tree f with
    | some (.file d) =>
      .ok { statRes := if f ∈ fs.failStat then .error (.statFail f)
                       else .ok (d.info (baseName f)),
            content := d.content }
    | _ => .error (.openFail f)

/-- Resource events of the producing task, for the handle-leak property. -/
inductive FileEvent
  | opened (f : GoPath)
  | closed (f : GoPath)
deriving Repr, DecidableEq

/-- `tarDirReader.writeFile`: open, `defer file.Close()`, stat, build the
header, overwrite its name with the base name, write the header, copy the
content, flush.  Returns the error (if any), the tar writer state at return
(partial bytes stay written), and the open/close events.  The `defer` makes
the close event unconditional once the open succeeded. -/
def writeFileGo (fs : GoFS) (tw : TarWriter) (f : GoPath) :
    Option Err × TarWriter × List FileEvent :=
  match openFile fs f with
  | .error e => (some e, tw, [])
  | .ok file =>
    let body : Option Err × TarWriter :=
      match file.statRes with
      | .error e => (some e, tw)
      | .ok info =>
        match tarFileInfoHeader info with
        | .error e => (some e, tw)
        | .ok h0 =>
          let header := { h0 with name := baseName f }
          match tw.writeHeader header with
          | .error e => (some e, tw)
          | .ok tw1 =>
            match tw1.write file.content with
            | .error e => (some e, tw1)
            | .ok tw2 =>
              match tw2.flush with
              | .error e => (some e, tw2)
              | .ok tw3 => (none, tw3)
    (body.1, body.2, [.opened f, .closed f])

/-- Outcome of the background producing task: either the whole queue was
serialized and the archive and pipe writer were closed, or some step failed
and the goroutine called `panic(err)` — terminating the process with the pipe
never closed.  `out` is what reached the pipe before the end. -/
inductive QueueOutcome
  | completed (out : List Nat) (events : List FileEvent)
  | panicked (out : List Nat) (events : List FileEvent) (e : Err)
deriving Repr, DecidableEq

/-- `tarDirReader.writeQueue`: serialize every queued path in order; on the
first error, `panic(err)`.  After the queue, `t.archive.Close()` (errors also
panic) and `t.writer.Close()`. -/
def writeQueueGo (fs : GoFS) (tw : TarWriter) (evs : List FileEvent) :
    List GoPath → QueueOutcome
  | [] =>
    match tw.close with
    | .error e => .panicked tw.out evs e
    | .ok tw1 => .completed tw1.out evs
  | f :: rest =>
    match writeFileGo fs tw f with
    | (some e, tw1, fevs) => .panicked tw1.out (evs ++ fevs) e
    | (none, tw1, fevs) => writeQueueGo fs tw1 (evs ++ fevs) rest

/-- How the byte stream seen by the consumer ends: a clean end-of-archive
(`io.EOF` after the writer closes), a producer panic (process termination,
pipe never closed), or a pipe that no producer ever writes to or closes. -/
inductive StreamEnd
  | eof
  | panicked (e : Err)
  | neverClosed
deriving Repr, DecidableEq

/-- The consumer-visible stream: the bytes the producer pushed through the
pipe, and how the stream ends after them. -/
structure ProducedStream where
  bytes : List Nat
  ending : StreamEnd
deriving Repr, DecidableEq

/-- The stream produced by running `writeQueue` over a queue from a fresh
`tar.NewWriter(t.writer)`. -/
def runProducer (fs : GoFS) (queue : List GoPath) : ProducedStream :=
  match writeQueueGo fs ⟨[], 0, 0⟩ [] queue with
  | .completed out _ => ⟨out, .eof⟩
  | .panicked out _ e => ⟨out, .panicked e⟩

/-- State of a `tarDirReader` as the consumer observes it: the filesystem, the
queue built at initialization, the `initialized` flag, whether the producing
goroutine was launched, and how many stream bytes were already read. -/
structure TarDirReader where
  fs : GoFS
  queue : List GoPath
  initialized : Bool
  launched : Bool
  pos : Nat

/-- `NewTarDirReader`: an inert instance; no filesystem access yet. -/
def NewTarDirReader (fs : GoFS) : TarDirReader :=
  { fs := fs, queue := [], initialized := false, launched := false, pos := 0 }

/-- `tarDirReader.init`: idempotent via the `initialized` flag, which is set
before the walk; create the pipe and the tar writer; walk the tree to build
the queue; on walk failure return the error without launching the goroutine;
otherwise launch `writeQueue`. -/
def TarDirReader.init (t : TarDirReader) : TarDirReader × Option Err :=
  if t.initialized then (t, none)
  else
    let t1 := { t with initialized := true }
    match walkCollect t1.fs.tree with
    | .error e => (t1, some e)
    | .ok q => ({ t1 with queue := q, launched := true }, none)

/-- The stream this instance's pipe delivers: the producer's output when the
goroutine was launched, otherwise an empty stream nobody ever closes. -/
def TarDirReader.stream (t : TarDirReader) : ProducedStream :=
  if t.launched then runProducer t.fs t.queue else ⟨[], .neverClosed⟩

/-- `tarDirReader.Read` with a buffer of capacity `n`: run `init`, propagate
its error with zero bytes; otherwise read from the pipe.  `none` means the
call never returns (the pipe blocks forever, or the process died with the
panicking producer). -/
def TarDirReader.read (t : TarDirReader) (n : Nat) :
    Option (TarDirReader × List Nat × Option Err) :=
  match t.init with
  | (t1, some e) => some (t1, [], some e)
  | (t1, none) =>
    let s := t1.stream
    match s.bytes.drop t1.pos with
    | [] =>
      match s.ending with
      | .eof => some (t1, [], some .eofE)
      | .panicked _ => none
      | .neverClosed => none
    | rem =>
      let chunk := rem.take n
      some ({ t1 with pos := t1.pos + chunk.length }, chunk, none)

/-- Drive `Read` with a schedule of buffer capacities, concatenating the
delivered bytes; stops at end-of-stream or error. -/
def readConcat (t : TarDirReader) : List Nat → List Nat
  | [] => []
  | n :: rest =>
    match t.read n with
    | some (t1, chunk, none) => chunk ++ readConcat t1 rest
    | _ => []

/-- Base-256 value of a little-endian digit list (decoder side of
`natField`). -/
def decodeNat : List Nat → Nat
  | [] => 0
  | b :: rest => b + 256 * decodeNat rest

/-- One conformant-reader pass over a tar byte stream, fuel-bounded: a zero
block starts the end-of-archive trailer (a second zero block must follow);
otherwise read a header block, extract the zero-terminated name field and the
size, take the content and skip its padding, and continue.  Yields the entry
list as (name bytes, content bytes) pairs, or `none` for a malformed
stream. -/
def decodeTarAux : Nat → List Nat → Option (List (List Nat × List Nat))
  | 0, _ => none
  | fuel + 1, bs =>
    if bs.length < blockSize then none
    else
      let block := bs.take blockSize
      if block.all (· == 0) then
        if blockSize ≤ (bs.drop blockSize).length ∧
            ((bs.drop blockSize).take blockSize).all (· == 0) then some []
        else none
      else
        let nameB := (block.take 100).takeWhile (· != 0)
        let size := decodeNat ((block.drop 108).take 12)
        let body := bs.drop blockSize
        if body.length < size then none
        else
          let content := body.take size
          let padLen := (blockSize - size % blockSize) % blockSize
          match decodeTarAux fuel ((body.drop size).drop padLen) with
          | some entries => some ((nameB, content) :: entries)
          | none => none

/-- Decode a full tar stream (the fuel is ample: each step consumes at least
one block). -/
def decodeTar (bs : List Nat) : Option (List (List Nat × List Nat)) :=
  decodeTarAux (bs.length + 1) bs

/-- The consumer's decoded file view: fold the entry list into a lookup map
where a later entry overwrites an earlier one of the same name. -/
def entryView (entries : List (List Nat × List Nat)) (name : List Nat) :
    Option (List Nat) :=
  entries.foldl (fun acc e => if e.1 = name then some e.2 else acc) none

/-- Split a byte stream into blocks of at most `blockSize` bytes: the write
granularity at which the tar writer hands bytes to the pipe. -/
def blocksOfAux : Nat → List Nat → List (List Nat)
  | 0, _ => []
  | _ + 1, [] => []
  | fuel + 1, bs => bs.take blockSize :: blocksOfAux fuel (bs.drop blockSize)

/-- Block decomposition of a byte stream (ample fuel). -/
def blocksOf (bs : List Nat) : List (List Nat) := blocksOfAux bs.length bs

/-- State of the `io.Pipe` rendezvous between the producing goroutine and the
Read-side consumer: the chunks the producer has yet to write, the unbuffered
slot (at most one chunk in flight — a write blocks until a read drains it),
and the bytes the consumer has drained so far. -/
structure PipeSys where
  pending : List (List Nat)
  slot : Option (List Nat)
  consumed : List Nat
deriving Repr, DecidableEq

/-- One scheduler step of the producer/consumer pair coupled by the pipe: the
producer may deposit its next chunk only when the slot is empty (otherwise its
write blocks); the consumer may drain the slot when it is full. -/
inductive PStep : PipeSys → PipeSys → Prop
  | produce (c : List Nat) (rest : List (List Nat)) (consumed : List Nat) :
      PStep ⟨c :: rest, none, consumed⟩ ⟨rest, some c, consumed⟩
  | consume (pending : List (List Nat)) (c : List Nat) (consumed : List Nat) :
      PStep ⟨pending, some c, consumed⟩ ⟨pending, none, consumed ++ c⟩

/-- Reachability under pipe scheduler steps. -/
def PipeReach (s t : PipeSys) : Prop := Relation.ReflTransGen PStep s t

/-- The pipe system at goroutine launch: the producer will write the stream's
blocks in order, the slot is empty, nothing is consumed. -/
def initPipe (fs : GoFS) (queue : List GoPath) : PipeSys :=
  ⟨blocksOf (runProducer fs queue).bytes, none, []⟩

/-- Bytes held inside the pipe handoff at a given state. -/
def PipeSys.held (s : PipeSys) : Nat :=
  match s.slot with
  | none => 0
  | some c => c.length

/-- Decidable equality for `Except` values, used to settle concrete walk
outcomes. -/
instance instDecidableEqExcept {ε α : Type} [DecidableEq ε] [DecidableEq α] :
    DecidableEq (Except ε α) := fun a b =>
  match a, b with
  | .ok x, .ok y =>
    if h : x = y then .isTrue (by rw [h]) else .isFalse (by simp [h])
  | .error x, .error y =>
    if h : x = y then .isTrue (by rw [h]) else .isFalse (by simp [h])
  | .ok _, .error _ => .isFalse (by simp)
  | .error _, .ok _ => .isFalse (by simp)

/-- The events recorded with a producing-task outcome. -/
def QueueOutcome.events : QueueOutcome → List FileEvent
  | .completed _ evs => evs
  | .panicked _ evs _ => evs

/-- A queued path serializes without error under `fs`: it opens, stats, and
its size fits the decoder's 12-byte size field. -/
def opensCleanly (fs : GoFS) (f : GoPath) : Bool :=
  match openFile fs f with
  | .ok file =>
    match file.statRes with
    | .ok _ => decide (file.content.length < 256 ^ 12)
    | .error _ => false
  | .error _ => false

/-- A name the 100-byte header field and its zero-terminated decoding carry
faithfully: at most 100 code points, none of them `NUL`. -/
def goodName (s : String) : Bool :=
  decide (s.data.length ≤ 100) && s.data.all (fun c => decide (c.toNat ≠ 0))

/-- The content a queued path opens to (empty if the open fails). -/
def contentOf (fs : GoFS) (f : GoPath) : List Nat :=
  match openFile fs f with
  | .ok file => file.content
  | .error _ => []

/-- The bytes one archive entry occupies in the stream: header block, raw
content, zero padding to the block size. -/
def entryBytes (name : String) (content : List Nat) (mode mtime : Nat) :
    List Nat :=
  encodeHeader ⟨name, content.length, mode, mtime⟩ ++ content ++
  List.replicate ((blockSize - content.length % blockSize) % blockSize) 0

/-- The stream bytes the producing task emits for one queued path (the entry
for its base name and live content and metadata). -/
def fileEntryBytes (fs : GoFS) (f : GoPath) : List Nat :=
  match openFile fs f with
  | .ok file =>
    match file.statRes with
    | .ok info => entryBytes (baseName f) file.content info.mode info.mtime
    | .error _ => []
  | .error _ => []

/-! ## Walk correctness -/

mutual
/-- On a clean subtree the init walk appends exactly the pre-order file
paths. -/
theorem walkDirNode_clean_ok (node : FNode) (q : List GoPath) (p : GoPath)
    (hc : node.clean = true) :
    walkDirNode initCallback q p node = .ok (q ++ preorderFiles p node) := by
  match node with
  | .file d => simp [walkDirNode, initCallback, preorderFiles]
  | .dir es =>
    simp only [FNode.clean] at hc
    simp only [walkDirNode, initCallback, preorderFiles]
    exact walkDirList_clean_ok es q p hc
  | .badDir => simp [FNode.clean] at hc

/-- Directory children: the walk appends their pre-order file paths. -/
theorem walkDirList_clean_ok (es : List (String × FNode)) (q : List GoPath)
    (p : GoPath) (hc : cleanList es = true) :
    walkDirList initCallback q p es = .ok (q ++ preorderFilesList p es) := by
  match es with
  | [] => simp [walkDirList, preorderFilesList]
  | (n, c) :: rest =>
    simp only [cleanList, Bool.and_eq_true] at hc
    simp only [walkDirList, preorderFilesList]
    simp only [walkDirNode_clean_ok c q (p ++ [n]) hc.1,
      walkDirList_clean_ok rest (q ++ preorderFiles (p ++ [n]) c) p hc.2,
      List.append_assoc]
end

/-- `init`'s walk on a clean tree yields exactly the pre-order regular-file
paths. -/
theorem walkCollect_clean (root : FNode) (hc : root.clean = true) :
    walkCollect root = .ok (preorderFiles [] root) := by
  simpa [walkCollect] using walkDirNode_clean_ok root [] [] hc

end Godocker
namespace Godocker

theorem fieldBytes_length (bs : List Nat) (w : Nat) :
    (fieldBytes bs w).length = w := by
  simp [fieldBytes]
  omega

theorem natField_length (n w : Nat) : (natField n w).length = w := by
  induction w generalizing n with
  | zero => simp [natField]
  | succ w ih => simp [natField, ih]

theorem decodeNat_natField (w n : Nat) (h : n < 256 ^ w) :
    decodeNat (natField n w) = n := by
  induction w generalizing n with
  | zero => simp [natField, decodeNat]; omega
  | succ w ih =>
    have hp : 256 ^ (w + 1) = 256 ^ w * 256 := by ring
    rw [hp] at h
    have hlt : n / 256 < 256 ^ w := by omega
    simp [natField, decodeNat, ih _ hlt]
    omega

theorem encodeHeader_length (h : TarHeader) : (encodeHeader h).length = 512 := by
  simp only [encodeHeader, List.length_append, fieldBytes_length, natField_length,
    List.length_replicate, List.length_cons, List.length_nil]

theorem all_replicate_zero (n : Nat) :
    (List.replicate n (0 : Nat)).all (· == 0) = true := by
  rw [List.all_eq_true]
  intro x hx
  rw [List.eq_of_mem_replicate hx]
  rfl

theorem encodeHeader_not_zero (h : TarHeader) :
    (encodeHeader h).all (· == 0) = false := by
  rw [List.all_eq_false]
  refine ⟨117, ?_, by decide⟩
  simp only [encodeHeader, List.mem_append, List.mem_cons]
  tauto

end Godocker
namespace Godocker

theorem takeWhile_append_zeros (xs : List Nat) (k : Nat)
    (h : ∀ x ∈ xs, x ≠ 0) :
    (xs ++ List.replicate k 0).takeWhile (· != 0) = xs := by
  induction xs with
  | nil =>
    cases k with
    | zero => simp
    | succ k => simp [List.replicate_succ]
  | cons a xs ih =>
    have ha : a ≠ 0 := h a (by simp)
    simp only [List.cons_append, List.takeWhile_cons]
    have : (a != 0) = true := by simpa using ha
    rw [this]
    simp only [if_true]
    rw [ih (fun x hx => h x (by simp [hx]))]

theorem goodName_len (s : String) (h : goodName s = true) :
    (strBytes s).length ≤ 100 := by
  unfold goodName at h
  simp [Bool.and_eq_true] at h
  simpa [strBytes] using h.1

theorem goodName_nonzero (s : String) (h : goodName s = true) :
    ∀ x ∈ strBytes s, x ≠ 0 := by
  unfold goodName at h
  simp [Bool.and_eq_true, List.all_eq_true] at h
  intro x hx
  simp only [strBytes, List.mem_map] at hx
  obtain ⟨c, hc, rfl⟩ := hx
  exact h.2 c hc

theorem fieldBytes_good (s : String) (h : goodName s = true) :
    fieldBytes (strBytes s) 100 =
      strBytes s ++ List.replicate (100 - (strBytes s).length) 0 := by
  unfold fieldBytes
  rw [List.take_of_length_le (goodName_len s h)]

theorem nameField_decode (s : String) (h : goodName s = true) :
    (fieldBytes (strBytes s) 100).takeWhile (· != 0) = strBytes s := by
  rw [fieldBytes_good s h]
  exact takeWhile_append_zeros _ _ (goodName_nonzero s h)

theorem openFile_ok_shape (fs : GoFS) (f : GoPath) (file : OpenedFile)
    (h : openFile fs f = .ok file) :
    ∃ d : FileData, lookupSegs fs.tree f = some (.file d) ∧
      file.content = d.content ∧
      file.statRes = (if f ∈ fs.failStat then .error (.statFail f)
                      else .ok (d.info (baseName f))) := by
  unfold openFile at h
  by_cases hfo : f ∈ fs.failOpen
  · simp [hfo] at h
  · simp only [hfo, if_false] at h
    cases hl : lookupSegs fs.tree f with
    | none => rw [hl] at h; simp at h
    | some node =>
      rw [hl] at h
      cases node with
      | file d =>
        simp only [Except.ok.injEq] at h
        exact ⟨d, rfl, by rw [← h], by rw [← h]⟩
      | dir es => simp at h
      | badDir => simp at h

end Godocker
namespace Godocker

theorem opensCleanly_shape (fs : GoFS) (f : GoPath)
    (h : opensCleanly fs f = true) :
    ∃ d : FileData,
      openFile fs f = .ok ⟨.ok (d.info (baseName f)), d.content⟩ ∧
      contentOf fs f = d.content ∧
      fileEntryBytes fs f = entryBytes (baseName f) d.content d.mode d.mtime ∧
      d.content.length < 256 ^ 12 := by
  cases hof : openFile fs f with
  | error e => unfold opensCleanly at h; rw [hof] at h; simp at h
  | ok file =>
    obtain ⟨d, hlk, hcont, hstat⟩ := openFile_ok_shape fs f file hof
    by_cases hfs : f ∈ fs.failStat
    · unfold opensCleanly at h
      rw [hof] at h
      simp only [hfs, if_true] at hstat
      simp [hstat] at h
    · simp only [hfs, if_false] at hstat
      have hlen : d.content.length < 256 ^ 12 := by
        unfold opensCleanly at h
        rw [hof] at h
        simp only [hstat, hcont, decide_eq_true_eq] at h
        exact h
      have hfile : file = ⟨.ok (d.info (baseName f)), d.content⟩ := by
        cases file
        simp only [OpenedFile.mk.injEq]
        exact ⟨hstat, hcont⟩
      refine ⟨d, by rw [hfile], ?_, ?_, hlen⟩
      · simp only [contentOf, hof, hcont]
      · simp only [fileEntryBytes, hof, hstat, hcont, FileData.info]

end Godocker
namespace Godocker

theorem writeFileGo_ok (fs : GoFS) (tw : TarWriter) (f : GoPath)
    (h0 : tw.remaining = 0) (hp : tw.pad = 0)
    (hc : opensCleanly fs f = true) :
    writeFileGo fs tw f =
      (none, ⟨tw.out ++ fileEntryBytes fs f, 0, 0⟩,
        [FileEvent.opened f, FileEvent.closed f]) := by
  obtain ⟨d, hof, hcont, hfeb, hlen⟩ := opensCleanly_shape fs f hc
  rw [hfeb]
  unfold writeFileGo
  rw [hof]
  simp only [tarFileInfoHeader, FileData.info, TarWriter.writeHeader,
    TarWriter.flush, TarWriter.write, h0, hp, entryBytes,
    List.replicate_zero, List.append_nil, ne_eq, not_true_eq_false,
    not_false_eq_true, if_true, if_false, ite_true, ite_false,
    Bool.false_eq_true, gt_iff_lt, lt_irrefl, Nat.sub_self,
    List.append_assoc, Prod.mk.injEq]

end Godocker
namespace Godocker

theorem writeQueueGo_completed (fs : GoFS) :
    ∀ (q : List GoPath) (tw : TarWriter) (evs : List FileEvent),
    tw.remaining = 0 → tw.pad = 0 →
    (∀ f ∈ q, opensCleanly fs f = true) →
    writeQueueGo fs tw evs q =
      .completed
        (tw.out ++ (q.map (fileEntryBytes fs)).flatten ++ List.replicate 1024 0)
        (evs ++ (q.map (fun f => [FileEvent.opened f, FileEvent.closed f])).flatten) := by
  intro q
  induction q with
  | nil =>
    intro tw evs h0 hp _
    simp only [writeQueueGo, TarWriter.close, TarWriter.flush, h0, hp,
      List.replicate_zero, List.append_nil, ne_eq, not_true_eq_false,
      Bool.false_eq_true, if_false, ite_false, List.map_nil, List.flatten_nil]
    have h2 : 2 * blockSize = 1024 := rfl
    rw [h2]
  | cons f rest ih =>
    intro tw evs h0 hp hall
    simp only [writeQueueGo, writeFileGo_ok fs tw f h0 hp (hall f (by simp))]
    rw [ih ⟨tw.out ++ fileEntryBytes fs f, 0, 0⟩ _ rfl rfl
      (fun g hg => hall g (by simp [hg]))]
    simp only [List.map_cons, List.flatten_cons, List.append_assoc]

theorem runProducer_ok (fs : GoFS) (q : List GoPath)
    (h : ∀ f ∈ q, opensCleanly fs f = true) :
    runProducer fs q =
      ⟨(q.map (fileEntryBytes fs)).flatten ++ List.replicate 1024 0, .eof⟩ := by
  simp only [runProducer, writeQueueGo_completed fs q ⟨[], 0, 0⟩ [] rfl rfl h,
    List.nil_append]

end Godocker
namespace Godocker

theorem take_rep_512 : (List.replicate 1024 (0:Nat)).take 512 = List.replicate 512 0 := by
  rw [List.take_replicate]
  congr 1

theorem drop_rep_512 : (List.replicate 1024 (0:Nat)).drop 512 = List.replicate 512 0 := by
  rw [List.drop_replicate]

theorem decodeTarAux_trailer (fuel : Nat) :
    decodeTarAux (fuel + 1) (List.replicate 1024 0) = some [] := by
  unfold decodeTarAux
  simp only [blockSize, List.length_replicate, take_rep_512, drop_rep_512,
    all_replicate_zero]
  rw [if_neg (by omega)]
  simp only [if_true, List.take_replicate, List.length_replicate]
  rw [if_pos]
  constructor
  · omega
  · exact all_replicate_zero _

end Godocker
namespace Godocker

theorem encodeHeader_take_100 (name : String) (sz mode mtime : Nat) :
    (encodeHeader ⟨name, sz, mode, mtime⟩).take 100 =
      fieldBytes (strBytes name) 100 := by
  simp only [encodeHeader, List.append_assoc]
  exact List.take_left' (fieldBytes_length _ _)

theorem encodeHeader_size_field (name : String) (sz mode mtime : Nat) :
    ((encodeHeader ⟨name, sz, mode, mtime⟩).drop 108).take 12 =
      natField sz 12 := by
  simp only [encodeHeader, List.append_assoc]
  rw [← List.append_assoc (fieldBytes (strBytes name) 100)]
  rw [List.drop_left' (by simp [fieldBytes_length, natField_length])]
  exact List.take_left' (natField_length _ _)

end Godocker
namespace Godocker

theorem decodeTarAux_entry (fuel : Nat) (name : String) (content : List Nat)
    (mode mtime : Nat) (rest : List Nat)
    (hg : goodName name = true) (hs : content.length < 256 ^ 12) :
    decodeTarAux (fuel + 1) (entryBytes name content mode mtime ++ rest) =
      Option.map (fun entries => (strBytes name, content) :: entries)
        (decodeTarAux fuel rest) := by
  have hbs : entryBytes name content mode mtime ++ rest =
      encodeHeader ⟨name, content.length, mode, mtime⟩ ++
        (content ++ (List.replicate
          ((blockSize - content.length % blockSize) % blockSize) 0 ++ rest)) := by
    simp [entryBytes, List.append_assoc]
  rw [hbs]
  have hlen : (encodeHeader (⟨name, content.length, mode, mtime⟩ : TarHeader)).length
      = 512 := encodeHeader_length _
  simp only [decodeTarAux, blockSize]
  simp only [List.take_left' hlen, List.drop_left' hlen, encodeHeader_not_zero,
    Bool.false_eq_true, if_false, encodeHeader_take_100, encodeHeader_size_field,
    nameField_decode name hg, decodeNat_natField 12 content.length hs,
    List.take_left, List.drop_left, List.length_append, hlen,
    List.length_replicate]
  rw [if_neg (by omega)]
  rw [if_neg (by omega)]
  rw [List.drop_left' (List.length_replicate _ _)]
  cases hres : decodeTarAux fuel rest with
  | some entries => simp [hres]
  | none => simp [hres]

end Godocker
namespace Godocker

theorem fileEntryBytes_big (fs : GoFS) (f : GoPath)
    (h : opensCleanly fs f = true) : 512 ≤ (fileEntryBytes fs f).length := by
  obtain ⟨d, _, _, hfeb, _⟩ := opensCleanly_shape fs f h
  rw [hfeb]
  simp only [entryBytes, List.length_append, encodeHeader_length]
  omega

theorem queue_le_flatten (fs : GoFS) (q : List GoPath)
    (h : ∀ f ∈ q, opensCleanly fs f = true) :
    q.length ≤ ((q.map (fileEntryBytes fs)).flatten).length := by
  induction q with
  | nil => simp
  | cons f rest ih =>
    simp only [List.map_cons, List.flatten_cons, List.length_append,
      List.length_cons]
    have h1 := fileEntryBytes_big fs f (h f (by simp))
    have h2 := ih (fun g hg => h g (by simp [hg]))
    omega

theorem decodeTarAux_entries (fs : GoFS) :
    ∀ (q : List GoPath) (fuel : Nat), q.length < fuel →
    (∀ f ∈ q, opensCleanly fs f = true) →
    (∀ f ∈ q, goodName (baseName f) = true) →
    decodeTarAux fuel
        ((q.map (fileEntryBytes fs)).flatten ++ List.replicate 1024 0) =
      some (q.map (fun f => (strBytes (baseName f), contentOf fs f))) := by
  intro q
  induction q with
  | nil =>
    intro fuel hf _ _
    match fuel, hf with
    | fuel + 1, _ =>
      simp only [List.map_nil, List.flatten_nil, List.nil_append]
      exact decodeTarAux_trailer fuel
  | cons f rest ih =>
    intro fuel hf hall hname
    match fuel, hf with
    | fuel + 1, hf =>
      obtain ⟨d, hof, hcont, hfeb, hlen⟩ := opensCleanly_shape fs f (hall f (by simp))
      simp only [List.map_cons, List.flatten_cons, List.append_assoc]
      rw [hfeb]
      rw [decodeTarAux_entry fuel (baseName f) d.content d.mode d.mtime _
        (hname f (by simp)) hlen]
      rw [ih fuel (by simp at hf; omega) (fun g hg => hall g (by simp [hg]))
        (fun g hg => hname g (by simp [hg]))]
      simp [hcont]

theorem decodeTar_runProducer (fs : GoFS) (q : List GoPath)
    (ho : ∀ f ∈ q, opensCleanly fs f = true)
    (hn : ∀ f ∈ q, goodName (baseName f) = true) :
    decodeTar (runProducer fs q).bytes =
      some (q.map (fun f => (strBytes (baseName f), contentOf fs f))) := by
  rw [runProducer_ok fs q ho]
  apply decodeTarAux_entries fs q _ _ ho hn
  have := queue_le_flatten fs q ho
  simp only [List.length_append, List.length_replicate]
  omega

end Godocker
namespace Godocker

theorem init_initialized (fs : GoFS) (q : List GoPath) (l : Bool) (pos : Nat) :
    TarDirReader.init ⟨fs, q, true, l, pos⟩ = (⟨fs, q, true, l, pos⟩, none) := by
  simp [TarDirReader.init]

theorem read_initialized_eof (fs : GoFS) (q : List GoPath) (pos n : Nat)
    (heof : (runProducer fs q).ending = .eof)
    (hend : (runProducer fs q).bytes.drop pos = []) :
    TarDirReader.read ⟨fs, q, true, true, pos⟩ n =
      some (⟨fs, q, true, true, pos⟩, [], some .eofE) := by
  simp only [TarDirReader.read, init_initialized, TarDirReader.stream, if_true]
  rw [hend]
  simp only [heof]

theorem read_initialized_data (fs : GoFS) (q : List GoPath) (pos n : Nat)
    (b : Nat) (bs : List Nat)
    (hrem : (runProducer fs q).bytes.drop pos = b :: bs) :
    TarDirReader.read ⟨fs, q, true, true, pos⟩ n =
      some (⟨fs, q, true, true, pos + ((b :: bs).take n).length⟩,
        (b :: bs).take n, none) := by
  simp only [TarDirReader.read, init_initialized, TarDirReader.stream, if_true]
  rw [hrem]

theorem readConcat_initialized (fs : GoFS) (q : List GoPath)
    (heof : (runProducer fs q).ending = .eof) :
    ∀ (sched : List Nat) (pos : Nat),
    readConcat ⟨fs, q, true, true, pos⟩ sched =
      ((runProducer fs q).bytes.drop pos).take sched.sum := by
  intro sched
  induction sched with
  | nil => intro pos; simp [readConcat]
  | cons n rest ih =>
    intro pos
    cases hrem : (runProducer fs q).bytes.drop pos with
    | nil =>
      simp only [readConcat, read_initialized_eof fs q pos n heof hrem]
      simp
    | cons b bs =>
      simp only [readConcat, read_initialized_data fs q pos n b bs hrem]
      rw [ih (pos + ((b :: bs).take n).length)]
      rw [List.sum_cons]
      by_cases hn : n ≤ (b :: bs).length
      · have hlen : ((b :: bs).take n).length = n := by
          simp only [List.length_take]
          omega
        rw [hlen, List.take_add]
        congr 1
        rw [← List.drop_drop n pos, hrem]
      · push_neg at hn
        have htk : (b :: bs).take n = b :: bs := List.take_of_length_le (by omega)
        rw [htk]
        have hdrop :
            (runProducer fs q).bytes.drop (pos + (b :: bs).length) = [] := by
          rw [← List.drop_drop (b :: bs).length pos, hrem, List.drop_length]
        rw [hdrop]
        rw [List.take_nil, List.append_nil]
        rw [List.take_of_length_le (by omega)]

theorem read_fresh_ok (fs : GoFS) (q : List GoPath) (n : Nat)
    (hwalk : walkCollect fs.tree = .ok q) :
    (NewTarDirReader fs).read n = TarDirReader.read ⟨fs, q, true, true, 0⟩ n := by
  have h1 : (NewTarDirReader fs).init = (⟨fs, q, true, true, 0⟩, none) := by
    simp only [TarDirReader.init, NewTarDirReader, Bool.false_eq_true, if_false,
      hwalk]
  simp only [TarDirReader.read, h1, init_initialized]

theorem readConcat_fresh (fs : GoFS) (q : List GoPath)
    (hwalk : walkCollect fs.tree = .ok q)
    (heof : (runProducer fs q).ending = .eof) (sched : List Nat) :
    readConcat (NewTarDirReader fs) sched =
      (runProducer fs q).bytes.take sched.sum := by
  cases sched with
  | nil => simp [readConcat]
  | cons n rest =>
    have hstep : readConcat (NewTarDirReader fs) (n :: rest) =
        readConcat ⟨fs, q, true, true, 0⟩ (n :: rest) := by
      simp only [readConcat, read_fresh_ok fs q n hwalk]
    rw [hstep, readConcat_initialized fs q heof (n :: rest) 0, List.drop_zero]

end Godocker
namespace Godocker

theorem writeFileGo_events (fs : GoFS) (tw : TarWriter) (f : GoPath) :
    (writeFileGo fs tw f).2.2 = [] ∨
    (writeFileGo fs tw f).2.2 = [FileEvent.opened f, FileEvent.closed f] := by
  unfold writeFileGo
  cases openFile fs f with
  | error e => left; rfl
  | ok file => right; rfl

theorem events_balanced (evs : List FileEvent) (g : GoPath)
    (h : evs = [] ∨ ∃ f, evs = [FileEvent.opened f, FileEvent.closed f]) :
    evs.count (FileEvent.opened g) = evs.count (FileEvent.closed g) := by
  rcases h with rfl | ⟨f, rfl⟩
  · rfl
  · by_cases hg : f = g
    · subst hg; simp [List.count_cons]
    · have h1 : (FileEvent.opened f == FileEvent.opened g) = false := by
        simp [hg]
      have h2 : (FileEvent.closed f == FileEvent.closed g) = false := by
        simp [hg]
      simp [List.count_cons, h1, h2]

theorem writeQueueGo_events (fs : GoFS) :
    ∀ (q : List GoPath) (tw : TarWriter) (evs : List FileEvent),
    ∃ extra, (writeQueueGo fs tw evs q).events = evs ++ extra ∧
      ∀ g, extra.count (FileEvent.opened g) = extra.count (FileEvent.closed g) := by
  intro q
  induction q with
  | nil =>
    intro tw evs
    refine ⟨[], ?_, fun g => rfl⟩
    unfold writeQueueGo
    cases tw.close with
    | error e => simp [QueueOutcome.events]
    | ok tw1 => simp [QueueOutcome.events]
  | cons f rest ih =>
    intro tw evs
    have hfe := writeFileGo_events fs tw f
    unfold writeQueueGo
    cases hw : writeFileGo fs tw f with
    | mk r tw1fevs =>
      cases tw1fevs with
      | mk tw1 fevs =>
        rw [hw] at hfe
        simp only at hfe
        have hbal : ∀ g, fevs.count (FileEvent.opened g) =
            fevs.count (FileEvent.closed g) := by
          intro g
          apply events_balanced
          rcases hfe with h | h
          · exact Or.inl h
          · exact Or.inr ⟨f, h⟩
        cases r with
        | some e =>
          refine ⟨fevs, ?_, hbal⟩
          simp [QueueOutcome.events]
        | none =>
          obtain ⟨extra, hev, hbal2⟩ := ih tw1 (evs ++ fevs)
          refine ⟨fevs ++ extra, ?_, ?_⟩
          · simp only [hev, List.append_assoc]
          · intro g
            simp [List.count_append, hbal g, hbal2 g]

theorem entryView_append (es : List (List Nat × List Nat))
    (e : List Nat × List Nat) (name : List Nat) :
    entryView (es ++ [e]) name =
      if e.1 = name then some e.2 else entryView es name := by
  simp [entryView, List.foldl_append]

theorem entryView_getLast (name : List Nat) :
    ∀ es : List (List Nat × List Nat),
    entryView es name =
      ((es.filter (fun e => e.1 == name)).getLast?).map Prod.snd := by
  intro es
  induction es using List.reverseRecOn with
  | nil => rfl
  | append_singleton es e ih =>
    rw [entryView_append, List.filter_append]
    by_cases he : e.1 = name
    · simp [he, List.getLast?_concat]
    · have : (fun x => x.1 == name) e = false := by simpa using he
      simp only [List.filter_cons, List.filter_nil, this,
        Bool.false_eq_true, if_false, List.append_nil, ih, if_neg he]

end Godocker
namespace Godocker

theorem blocksOfAux_nil (fuel : Nat) : blocksOfAux fuel [] = [] := by
  cases fuel with
  | zero => rfl
  | succ f => rfl

theorem blocksOfAux_cons (fuel : Nat) (b : Nat) (bs : List Nat) :
    blocksOfAux (fuel + 1) (b :: bs) =
      (b :: bs).take blockSize :: blocksOfAux fuel ((b :: bs).drop blockSize) :=
  rfl

theorem blocksOfAux_small :
    ∀ (fuel : Nat) (bs : List Nat), ∀ c ∈ blocksOfAux fuel bs,
      c.length ≤ blockSize := by
  intro fuel
  induction fuel with
  | zero => intro bs c hc; simp [blocksOfAux] at hc
  | succ f ih =>
    intro bs c hc
    cases bs with
    | nil => rw [blocksOfAux_nil] at hc; simp at hc
    | cons b bs' =>
      rw [blocksOfAux_cons] at hc
      rcases List.mem_cons.mp hc with rfl | hmem
      · simp only [List.length_take]
        omega
      · exact ih _ c hmem

theorem pipe_inv (init : PipeSys)
    (hinit : (∀ c ∈ init.pending, c.length ≤ blockSize) ∧
      init.held ≤ blockSize) :
    ∀ s, PipeReach init s →
      (∀ c ∈ s.pending, c.length ≤ blockSize) ∧ s.held ≤ blockSize := by
  intro s hreach
  induction hreach with
  | refl => exact hinit
  | tail hr hstep ih =>
    cases hstep with
    | produce c rest consumed =>
      refine ⟨fun c2 hc2 => ih.1 c2 (List.mem_cons_of_mem _ hc2), ?_⟩
      simp only [PipeSys.held]
      exact ih.1 c (List.mem_cons_self _ _)
    | consume pending c consumed =>
      exact ⟨ih.1, by simp [PipeSys.held]⟩

theorem init_fresh_err (fs : GoFS) (e : Err)
    (h : walkCollect fs.tree = .error e) :
    (NewTarDirReader fs).init = (⟨fs, [], true, false, 0⟩, some e) := by
  simp only [TarDirReader.init, NewTarDirReader, Bool.false_eq_true, if_false, h]

theorem read_fresh_err (fs : GoFS) (e : Err) (n : Nat)
    (h : walkCollect fs.tree = .error e) :
    (NewTarDirReader fs).read n = some (⟨fs, [], true, false, 0⟩, [], some e) := by
  simp only [TarDirReader.read, init_fresh_err fs e h]

theorem read_unlaunched (fs : GoFS) (q : List GoPath) (pos m : Nat) :
    TarDirReader.read ⟨fs, q, true, false, pos⟩ m = none := by
  simp only [TarDirReader.read, init_initialized, TarDirReader.stream,
    Bool.false_eq_true, if_false]
  simp

end Godocker
namespace Godocker

theorem writeQueueGo_fail_head (fs : GoFS) (tw : TarWriter)
    (evs : List FileEvent) (f : GoPath) (rest : List GoPath) (e : Err)
    (tw1 : TarWriter) (fevs : List FileEvent)
    (hw : writeFileGo fs tw f = (some e, tw1, fevs)) :
    writeQueueGo fs tw evs (f :: rest) = .panicked tw1.out (evs ++ fevs) e := by
  unfold writeQueueGo
  rw [hw]

theorem read_past_panic (fs : GoFS) (q : List GoPath) (out : List Nat)
    (evs : List FileEvent) (e : Err) (pos n : Nat)
    (hq : writeQueueGo fs ⟨[], 0, 0⟩ [] q = .panicked out evs e)
    (hpos : out.length ≤ pos) :
    TarDirReader.read ⟨fs, q, true, true, pos⟩ n = none := by
  have hrp : runProducer fs q = ⟨out, .panicked e⟩ := by
    unfold runProducer
    rw [hq]
  simp only [TarDirReader.read, init_initialized, TarDirReader.stream, if_true,
    hrp, List.drop_eq_nil_of_le hpos]

theorem blocksOf_1024 (bs : List Nat) (h : bs.length = 1024) :
    blocksOf bs = [bs.take blockSize, bs.drop blockSize] := by
  cases bs with
  | nil => simp at h
  | cons b bs' =>
    unfold blocksOf
    rw [h]
    rw [show (1024 : Nat) = 1023 + 1 from rfl]
    rw [blocksOfAux_cons]
    cases hd : (b :: bs').drop blockSize with
    | nil =>
      exfalso
      have hlen := congrArg List.length hd
      rw [List.length_drop, h] at hlen
      simp [blockSize] at hlen
    | cons c cs =>
      have hclen : (c :: cs).length = 512 := by
        have h2 := congrArg List.length hd
        rw [List.length_drop, h] at h2
        simp [blockSize] at h2 ⊢
        omega
      have hlist : blocksOfAux 1023 (c :: cs) = [c :: cs] := by
        rw [show (1023 : Nat) = 1022 + 1 from rfl, blocksOfAux_cons]
        have hdrop : (c :: cs).drop blockSize = [] :=
          List.drop_eq_nil_of_le (by rw [hclen]; simp [blockSize])
        rw [hdrop, blocksOfAux_nil,
          List.take_of_length_le (by rw [hclen]; simp [blockSize])]
      rw [hlist]

theorem read_preserves_queue (fs : GoFS) (q : List GoPath) (pos n : Nat)
    (res : TarDirReader × List Nat × Option Err)
    (h : TarDirReader.read ⟨fs, q, true, true, pos⟩ n = some res) :
    res.1.queue = q := by
  cases hrem : (runProducer fs q).bytes.drop pos with
  | nil =>
    cases hend : (runProducer fs q).ending with
    | eof =>
      rw [read_initialized_eof fs q pos n hend hrem] at h
      obtain rfl := Option.some.inj h
      rfl
    | panicked e =>
      simp only [TarDirReader.read, init_initialized, TarDirReader.stream,
        if_true, hrem, hend] at h
      exact Option.noConfusion h
    | neverClosed =>
      simp only [TarDirReader.read, init_initialized, TarDirReader.stream,
        if_true, hrem, hend] at h
      exact Option.noConfusion h
  | cons b bs =>
    rw [read_initialized_data fs q pos n b bs hrem] at h
    obtain rfl := Option.some.inj h
    rfl

end Godocker
namespace Godocker

/-- C1 counterexample: with a single queued file whose open fails, the
producing task panics — `writeQueue`'s `panic(err)` terminates the whole
process — with the pipe never closed: the stream ends in `panicked`, not in an
error indication or end-of-stream, and the consumer's `Read` never returns
(`none`), so the failure is not surfaced to the caller of `Read`. -/
theorem claim_C1_counterexample :
    runProducer ⟨FNode.dir [("a", FNode.file ⟨[1, 2, 3], 0, 0⟩)], [["a"]], []⟩
        [["a"]] = ⟨[], .panicked (.openFail ["a"])⟩ ∧
    (NewTarDirReader
        ⟨FNode.dir [("a", FNode.file ⟨[1, 2, 3], 0, 0⟩)], [["a"]], []⟩).read 1 =
      none := by
  constructor
  · rfl
  · rfl

/-- C1 (amended): a per-file failure mid-pass makes the producing task abort
the remaining pass by calling `panic(err)`, which terminates the whole
process; the pipe is never closed with an error indication, and once the bytes
written before the failure are consumed, `Read` never returns — the failure is
not surfaced through `Read` at all. -/
theorem claim_C1_amended :
    (∀ (fs : GoFS) (tw : TarWriter) (evs : List FileEvent) (f : GoPath)
        (rest : List GoPath) (e : Err) (tw1 : TarWriter)
        (fevs : List FileEvent),
      writeFileGo fs tw f = (some e, tw1, fevs) →
      writeQueueGo fs tw evs (f :: rest) = .panicked tw1.out (evs ++ fevs) e) ∧
    (∀ (fs : GoFS) (q : List GoPath) (out : List Nat) (evs : List FileEvent)
        (e : Err) (pos n : Nat),
      writeQueueGo fs ⟨[], 0, 0⟩ [] q = .panicked out evs e →
      out.length ≤ pos →
      TarDirReader.read ⟨fs, q, true, true, pos⟩ n = none) :=
  ⟨writeQueueGo_fail_head, read_past_panic⟩

/-- Witness for C1 (amended) at a concrete one-file tree whose open fails. -/
theorem claim_C1_amended_witness :
    writeQueueGo ⟨FNode.dir [("a", FNode.file ⟨[1, 2, 3], 0, 0⟩)], [["a"]], []⟩
        ⟨[], 0, 0⟩ [] [["a"]] = .panicked [] [] (.openFail ["a"]) ∧
    TarDirReader.read
        ⟨⟨FNode.dir [("a", FNode.file ⟨[1, 2, 3], 0, 0⟩)], [["a"]], []⟩,
          [["a"]], true, true, 0⟩ 5 = none :=
  ⟨claim_C1_amended.1 _ _ [] ["a"] [] (.openFail ["a"]) ⟨[], 0, 0⟩ []
      (by decide),
    claim_C1_amended.2 _ [["a"]] [] [] (.openFail ["a"]) 0 5 (by decide)
      (by decide)⟩

/-- C2: if the tree walk fails during one-time initialization, the first
`Read` returns that traversal error with zero bytes read. -/
theorem claim_C2 (fs : GoFS) (e : Err) (n : Nat)
    (h : walkCollect fs.tree = .error e) :
    (NewTarDirReader fs).read n = some (⟨fs, [], true, false, 0⟩, [], some e) :=
  read_fresh_err fs e n h

/-- Witness for C2 at a tree with an unreadable directory. -/
theorem claim_C2_witness :
    (NewTarDirReader ⟨FNode.dir [("a", FNode.badDir)], [], []⟩).read 7 =
      some (⟨⟨FNode.dir [("a", FNode.badDir)], [], []⟩, [], true, false, 0⟩,
        [], some (.walkFail ["a"])) :=
  claim_C2 _ (.walkFail ["a"]) 7 (by decide)

end Godocker
namespace Godocker

/-- C3: under a clean walk, the queue is exactly the pre-order walk order
computed at initialization; the emitted archive decodes to one entry per
queued path in queue order (so stream order = queue order = walk order); and
`Read` never mutates the queue.  The filesystem serving the pass (`fsLive`)
is arbitrary — only the queue snapshot determines which entries appear and in
which order, so later changes to the source tree do not affect them. -/
theorem claim_C3 (fsInit fsLive : GoFS) (q : List GoPath)
    (hclean : fsInit.tree.clean = true)
    (hwalk : walkCollect fsInit.tree = .ok q)
    (ho : ∀ f ∈ q, opensCleanly fsLive f = true)
    (hn : ∀ f ∈ q, goodName (baseName f) = true) :
    q = preorderFiles [] fsInit.tree ∧
    decodeTar (runProducer fsLive q).bytes =
      some (q.map (fun f => (strBytes (baseName f), contentOf fsLive f))) ∧
    (∀ (pos n : Nat) (res : TarDirReader × List Nat × Option Err),
      TarDirReader.read ⟨fsLive, q, true, true, pos⟩ n = some res →
      res.1.queue = q) := by
  refine ⟨?_, decodeTar_runProducer fsLive q ho hn,
    fun pos n res h => read_preserves_queue fsLive q pos n res h⟩
  have h2 := walkCollect_clean fsInit.tree hclean
  rw [hwalk] at h2
  exact Except.ok.inj h2

/-- Witness for C3 at a two-file tree with a subdirectory. -/
theorem claim_C3_witness :
    [["a", "x"], ["c"]] =
      preorderFiles []
        (FNode.dir [("a", FNode.dir [("x", FNode.file ⟨[9], 1, 2⟩)]),
          ("c", FNode.file ⟨[7, 8], 3, 4⟩)]) ∧
    decodeTar (runProducer
        ⟨FNode.dir [("a", FNode.dir [("x", FNode.file ⟨[9], 1, 2⟩)]),
          ("c", FNode.file ⟨[7, 8], 3, 4⟩)], [], []⟩
        [["a", "x"], ["c"]]).bytes =
      some ([["a", "x"], ["c"]].map (fun f => (strBytes (baseName f),
        contentOf ⟨FNode.dir [("a", FNode.dir [("x", FNode.file ⟨[9], 1, 2⟩)]),
          ("c", FNode.file ⟨[7, 8], 3, 4⟩)], [], []⟩ f))) ∧
    (∀ (pos n : Nat) (res : TarDirReader × List Nat × Option Err),
      TarDirReader.read
        ⟨⟨FNode.dir [("a", FNode.dir [("x", FNode.file ⟨[9], 1, 2⟩)]),
          ("c", FNode.file ⟨[7, 8], 3, 4⟩)], [], []⟩,
          [["a", "x"], ["c"]], true, true, pos⟩ n = some res →
      res.1.queue = [["a", "x"], ["c"]]) :=
  claim_C3
    ⟨FNode.dir [("a", FNode.dir [("x", FNode.file ⟨[9], 1, 2⟩)]),
      ("c", FNode.file ⟨[7, 8], 3, 4⟩)], [], []⟩
    ⟨FNode.dir [("a", FNode.dir [("x", FNode.file ⟨[9], 1, 2⟩)]),
      ("c", FNode.file ⟨[7, 8], 3, 4⟩)], [], []⟩
    [["a", "x"], ["c"]] (by decide) (by decide) (by decide) (by decide)

/-- C4: initialization's walk on a clean tree records in the queue exactly
the regular files under the root, in deterministic pre-order, directories not
emitted. -/
theorem claim_C4 (root : FNode) (hc : root.clean = true) :
    walkCollect root = .ok (preorderFiles [] root) :=
  walkCollect_clean root hc

/-- Witness for C4 at a concrete mixed tree. -/
theorem claim_C4_witness :
    walkCollect
        (FNode.dir [("sub", FNode.dir [("f1", FNode.file ⟨[1], 0, 0⟩),
          ("g", FNode.dir [])]), ("f2", FNode.file ⟨[], 0, 0⟩)]) =
      .ok (preorderFiles []
        (FNode.dir [("sub", FNode.dir [("f1", FNode.file ⟨[1], 0, 0⟩),
          ("g", FNode.dir [])]), ("f2", FNode.file ⟨[], 0, 0⟩)])) :=
  claim_C4 _ (by decide)

/-- C5: every serialized entry's header name field is exactly the file's base
name (the decoded name list is the queue's base names, in queue order, so
colliding base names still produce both entries in order), and in the folded
consumer view of the decoded entries a later entry of a name silently
overwrites an earlier one: the view of a name is the content of the last
queued file with that base name. -/
theorem claim_C5 (fs : GoFS) (q : List GoPath)
    (ho : ∀ f ∈ q, opensCleanly fs f = true)
    (hn : ∀ f ∈ q, goodName (baseName f) = true) :
    ∃ entries,
      decodeTar (runProducer fs q).bytes = some entries ∧
      entries.map Prod.fst = q.map (fun f => strBytes (baseName f)) ∧
      ∀ name, entryView entries name =
        ((q.filter (fun f => strBytes (baseName f) == name)).getLast?).map
          (contentOf fs) := by
  refine ⟨q.map (fun f => (strBytes (baseName f), contentOf fs f)),
    decodeTar_runProducer fs q ho hn, by simp, ?_⟩
  intro name
  rw [entryView_getLast, List.filter_map, List.getLast?_map, Option.map_map]
  rfl

/-- Witness for C5 at two files in different subdirectories sharing the base
name "x". -/
theorem claim_C5_witness :
    ∃ entries,
      decodeTar (runProducer
          ⟨FNode.dir [("a", FNode.dir [("x", FNode.file ⟨[1], 0, 0⟩)]),
            ("b", FNode.dir [("x", FNode.file ⟨[2, 3], 0, 0⟩)])], [], []⟩
          [["a", "x"], ["b", "x"]]).bytes = some entries ∧
      entries.map Prod.fst =
        [["a", "x"], ["b", "x"]].map (fun f => strBytes (baseName f)) ∧
      ∀ name, entryView entries name =
        (([["a", "x"], ["b", "x"]].filter
            (fun f => strBytes (baseName f) == name)).getLast?).map
          (contentOf ⟨FNode.dir [("a", FNode.dir [("x", FNode.file ⟨[1], 0, 0⟩)]),
            ("b", FNode.dir [("x", FNode.file ⟨[2, 3], 0, 0⟩)])], [], []⟩) :=
  claim_C5
    ⟨FNode.dir [("a", FNode.dir [("x", FNode.file ⟨[1], 0, 0⟩)]),
      ("b", FNode.dir [("x", FNode.file ⟨[2, 3], 0, 0⟩)])], [], []⟩
    [["a", "x"], ["b", "x"]] (by decide) (by decide)

end Godocker
namespace Godocker

/-- C6: for a source tree with no regular files the producer emits exactly the
1024-zero-byte end-of-archive trailer, which decodes to zero entries; the
first `Read` delivers those bytes without error, and every later `Read`
returns end-of-stream (`io.EOF` with zero bytes), not a failure. -/
theorem claim_C6 (fs : GoFS) (hclean : fs.tree.clean = true)
    (hempty : preorderFiles [] fs.tree = []) :
    (runProducer fs []).bytes = List.replicate 1024 0 ∧
    decodeTar (runProducer fs []).bytes = some [] ∧
    ∃ t1 : TarDirReader,
      (NewTarDirReader fs).read 1024 = some (t1, List.replicate 1024 0, none) ∧
      ∀ m : Nat, t1.read m = some (t1, [], some .eofE) := by
  have hwalk : walkCollect fs.tree = .ok [] := by
    rw [walkCollect_clean fs.tree hclean, hempty]
  have hrp : runProducer fs [] = ⟨List.replicate 1024 0, .eof⟩ := by
    have h := runProducer_ok fs [] (by intro f hf; simp at hf)
    rw [h]
    simp only [List.map_nil, List.flatten_nil, List.nil_append]
  refine ⟨by rw [hrp], ?_, ?_⟩
  · rw [hrp]
    show decodeTarAux ((List.replicate 1024 (0 : Nat)).length + 1) _ = some []
    rw [List.length_replicate]
    exact decodeTarAux_trailer 1024
  · refine ⟨⟨fs, [], true, true, 1024⟩, ?_, ?_⟩
    · rw [read_fresh_ok fs [] 1024 hwalk]
      have hrem : (runProducer fs []).bytes.drop 0 =
          0 :: List.replicate 1023 0 := by
        rw [hrp, List.drop_zero]
        exact List.replicate_succ 0 1023
      rw [read_initialized_data fs [] 0 1024 0 (List.replicate 1023 0) hrem]
      have htk : (0 :: List.replicate 1023 (0 : Nat)).take 1024 =
          List.replicate 1024 0 := by
        rw [List.take_of_length_le
          (by simp only [List.length_cons, List.length_replicate]; omega)]
        exact (List.replicate_succ 0 1023).symm
      rw [htk]
      simp only [List.length_replicate, Nat.zero_add]
    · intro m
      apply read_initialized_eof
      · rw [hrp]
      · rw [hrp]
        simp only [List.drop_replicate, Nat.sub_self, List.replicate_zero]

/-- Witness for C6 at a tree of empty directories. -/
theorem claim_C6_witness :
    (runProducer ⟨FNode.dir [("d", FNode.dir [])], [], []⟩ []).bytes =
      List.replicate 1024 0 ∧
    decodeTar (runProducer ⟨FNode.dir [("d", FNode.dir [])], [], []⟩ []).bytes =
      some [] ∧
    ∃ t1 : TarDirReader,
      (NewTarDirReader ⟨FNode.dir [("d", FNode.dir [])], [], []⟩).read 1024 =
        some (t1, List.replicate 1024 0, none) ∧
      ∀ m : Nat, t1.read m = some (t1, [], some .eofE) :=
  claim_C6 ⟨FNode.dir [("d", FNode.dir [])], [], []⟩ (by decide) (by decide)

/-- C7: reading the stream with any two schedules of buffer sizes that both
cover the whole stream yields the same bytes — the full producer output — so
chunking does not change content. -/
theorem claim_C7 (fs : GoFS) (q : List GoPath) (s1 s2 : List Nat)
    (hwalk : walkCollect fs.tree = .ok q)
    (ho : ∀ f ∈ q, opensCleanly fs f = true)
    (h1 : (runProducer fs q).bytes.length ≤ s1.sum)
    (h2 : (runProducer fs q).bytes.length ≤ s2.sum) :
    readConcat (NewTarDirReader fs) s1 = (runProducer fs q).bytes ∧
    readConcat (NewTarDirReader fs) s1 = readConcat (NewTarDirReader fs) s2 := by
  have heof : (runProducer fs q).ending = .eof := by
    rw [runProducer_ok fs q ho]
  have e1 := readConcat_fresh fs q hwalk heof s1
  have e2 := readConcat_fresh fs q hwalk heof s2
  rw [List.take_of_length_le h1] at e1
  rw [List.take_of_length_le h2] at e2
  exact ⟨e1, by rw [e1, e2]⟩

/-- Witness for C7: one 1024-byte read versus 1024 one-byte reads on an empty
tree. -/
theorem claim_C7_witness :
    readConcat (NewTarDirReader ⟨FNode.dir [], [], []⟩) [1024] =
      (runProducer ⟨FNode.dir [], [], []⟩ []).bytes ∧
    readConcat (NewTarDirReader ⟨FNode.dir [], [], []⟩) [1024] =
      readConcat (NewTarDirReader ⟨FNode.dir [], [], []⟩)
        (List.replicate 1024 1) := by
  have hlen : (runProducer ⟨FNode.dir [], [], []⟩ []).bytes.length = 1024 := by
    have h := runProducer_ok ⟨FNode.dir [], [], []⟩ [] (by intro f hf; simp at hf)
    rw [h]
    simp only [List.map_nil, List.flatten_nil, List.nil_append,
      List.length_replicate]
  exact claim_C7 ⟨FNode.dir [], [], []⟩ [] [1024] (List.replicate 1024 1)
    (by decide) (by intro f hf; simp at hf)
    (by rw [hlen]; simp only [List.sum_cons, List.sum_nil]; omega)
    (by rw [hlen]
        simp only [List.sum_replicate, smul_eq_mul, mul_one, le_refl])

end Godocker
namespace Godocker

/-- C8: every source file handle the producing task opens for one entry is
closed before that entry's processing returns — `writeFile`'s events are
either empty (the open itself failed, nothing to close) or exactly an open
followed by its close, on the success path and on every error path — and over
a whole `writeQueue` run, completed or panicked, opens and closes balance for
every path, so per-file handles do not leak even when a later file fails. -/
theorem claim_C8 (fs : GoFS) (tw : TarWriter) (g : GoPath) :
    (∀ f : GoPath, FileEvent.opened g ∈ (writeFileGo fs tw f).2.2 →
      (writeFileGo fs tw f).2.2 = [FileEvent.opened f, FileEvent.closed f]) ∧
    (∀ q : List GoPath,
      ((writeQueueGo fs tw [] q).events).count (FileEvent.opened g) =
        ((writeQueueGo fs tw [] q).events).count (FileEvent.closed g)) := by
  constructor
  · intro f hmem
    rcases writeFileGo_events fs tw f with h | h
    · rw [h] at hmem
      simp at hmem
    · exact h
  · intro q
    obtain ⟨extra, hev, hbal⟩ := writeQueueGo_events fs q tw []
    rw [hev, List.nil_append]
    exact hbal g

/-- Witness for C8: a queue whose first file serializes and whose second file
fails to open. -/
theorem claim_C8_witness :
    (writeFileGo ⟨FNode.dir [("a", FNode.file ⟨[5], 0, 0⟩)], [["b"]], []⟩
        ⟨[], 0, 0⟩ ["a"]).2.2 =
      [FileEvent.opened ["a"], FileEvent.closed ["a"]] ∧
    ((writeQueueGo ⟨FNode.dir [("a", FNode.file ⟨[5], 0, 0⟩)], [["b"]], []⟩
        ⟨[], 0, 0⟩ [] [["a"], ["b"]]).events).count (FileEvent.opened ["a"]) =
      ((writeQueueGo ⟨FNode.dir [("a", FNode.file ⟨[5], 0, 0⟩)], [["b"]], []⟩
        ⟨[], 0, 0⟩ [] [["a"], ["b"]]).events).count (FileEvent.closed ["a"]) :=
  ⟨(claim_C8 ⟨FNode.dir [("a", FNode.file ⟨[5], 0, 0⟩)], [["b"]], []⟩
      ⟨[], 0, 0⟩ ["a"]).1 ["a"] (by decide),
    (claim_C8 ⟨FNode.dir [("a", FNode.file ⟨[5], 0, 0⟩)], [["b"]], []⟩
      ⟨[], 0, 0⟩ ["a"]).2 [["a"], ["b"]]⟩

/-- C9: the producer/consumer pair is coupled by the unbuffered pipe
rendezvous — a write can deposit its chunk only when the slot is empty, so it
blocks until the consumer drains it; in every reachable state the handoff
holds at most one archive block of bytes regardless of tree size; and as soon
as the stream has at least two blocks there is a schedule in which the
consumer has already received the first block while the producer still has
chunks to write — streaming starts before the whole tree is serialized. -/
theorem claim_C9 (fs : GoFS) (q : List GoPath) :
    (∀ s, PipeReach (initPipe fs q) s → s.held ≤ blockSize) ∧
    (∀ (c1 c2 : List Nat) (rest : List (List Nat)),
      blocksOf (runProducer fs q).bytes = c1 :: c2 :: rest →
      ∃ s, PipeReach (initPipe fs q) s ∧ s.consumed = c1 ∧ s.pending ≠ []) := by
  constructor
  · intro s hreach
    refine (pipe_inv (initPipe fs q) ⟨?_, ?_⟩ s hreach).2
    · intro c hc
      exact blocksOfAux_small _ _ c hc
    · simp [initPipe, PipeSys.held]
  · intro c1 c2 rest hb
    refine ⟨⟨c2 :: rest, none, c1⟩, ?_, rfl, by simp⟩
    have h0 : initPipe fs q = ⟨c1 :: c2 :: rest, none, []⟩ := by
      simp [initPipe, hb]
    rw [h0]
    have s1 : PStep ⟨c1 :: c2 :: rest, none, []⟩ ⟨c2 :: rest, some c1, []⟩ :=
      PStep.produce c1 (c2 :: rest) []
    have s2 : PStep ⟨c2 :: rest, some c1, []⟩ ⟨c2 :: rest, none, c1⟩ := by
      have h := PStep.consume (c2 :: rest) c1 []
      simpa using h
    exact Relation.ReflTransGen.head s1 (Relation.ReflTransGen.single s2)

/-- Witness for C9: the empty-tree stream is exactly two trailer blocks; the
initial pipe state holds nothing, and after one produce/consume round the
consumer holds the first block while the second is still pending. -/
theorem claim_C9_witness :
    (initPipe ⟨FNode.dir [], [], []⟩ []).held ≤ blockSize ∧
    ∃ s, PipeReach (initPipe ⟨FNode.dir [], [], []⟩ []) s ∧
      s.consumed = List.replicate 512 0 ∧ s.pending ≠ [] :=
  ⟨(claim_C9 ⟨FNode.dir [], [], []⟩ []).1 _ Relation.ReflTransGen.refl,
    (claim_C9 ⟨FNode.dir [], [], []⟩ []).2 (List.replicate 512 0)
      (List.replicate 512 0) []
      (by
        have h := runProducer_ok ⟨FNode.dir [], [], []⟩ []
          (by intro f hf; simp at hf)
        have hb : (runProducer ⟨FNode.dir [], [], []⟩ []).bytes =
            List.replicate 1024 0 := by
          rw [h]
          simp only [List.map_nil, List.flatten_nil, List.nil_append]
        rw [hb, blocksOf_1024 _ (by simp only [List.length_replicate])]
        simp only [blockSize, take_rep_512, drop_rep_512])⟩

/-- C10: after a failed walk the first `Read` returns the traversal error, the
instance stays permanently initialized with no producing task: `init` returns
no error on every later call, and every subsequent `Read` neither returns
data, an error, nor end-of-stream — it blocks forever on the pipe nothing
will ever write to or close (`none`). -/
theorem claim_C10 (fs : GoFS) (e : Err) (n : Nat)
    (h : walkCollect fs.tree = .error e) :
    (NewTarDirReader fs).read n = some (⟨fs, [], true, false, 0⟩, [], some e) ∧
    TarDirReader.init ⟨fs, [], true, false, 0⟩ =
      (⟨fs, [], true, false, 0⟩, none) ∧
    ∀ m : Nat, TarDirReader.read ⟨fs, [], true, false, 0⟩ m = none :=
  ⟨read_fresh_err fs e n h, init_initialized fs [] false 0,
    fun m => read_unlaunched fs [] 0 m⟩

/-- Witness for C10 at a tree with an unreadable directory. -/
theorem claim_C10_witness :
    (NewTarDirReader ⟨FNode.dir [("bad", FNode.badDir)], [], []⟩).read 3 =
      some (⟨⟨FNode.dir [("bad", FNode.badDir)], [], []⟩, [], true, false, 0⟩,
        [], some (.walkFail ["bad"])) ∧
    TarDirReader.init
        ⟨⟨FNode.dir [("bad", FNode.badDir)], [], []⟩, [], true, false, 0⟩ =
      (⟨⟨FNode.dir [("bad", FNode.badDir)], [], []⟩, [], true, false, 0⟩,
        none) ∧
    ∀ m : Nat, TarDirReader.read
        ⟨⟨FNode.dir [("bad", FNode.badDir)], [], []⟩, [], true, false, 0⟩ m =
      none :=
  claim_C10 ⟨FNode.dir [("bad", FNode.badDir)], [], []⟩ (.walkFail ["bad"]) 3
    (by decide)

end Godocker
